import Mathlib

/-!
# Verification of the "following, no reposts" feed generator

Shallow embedding of the indexing and feed-serving pipeline of the
feed-generator service (files `database.rs`, `feed_algorithm.rs`,
`jetstream_consumer.rs`, `backfill.rs`, `auth.rs`, `main.rs`).

Modelling conventions:
* SQL tables are Lean lists of rows; `INSERT OR REPLACE` removes the rows
  sharing the primary key and appends the new row; `DELETE ... WHERE` is a
  filter.
* UTC instants are modelled as `Int`.  The code stores instants as RFC 3339
  strings produced by `chrono`'s `to_rfc3339` and compares them as strings in
  SQL; that rendering is strictly monotone on instants, so comparing the
  underlying `Int` values is faithful.  The external chrono parser/renderer
  pair is modelled by the concrete inverse pair `parseTs` / `renderTs` below.
* Machine integers (`i32`, `i64`) stay well inside their ranges in every
  quantity handled here (limits are capped at 100), so `Int` is used directly.
-/

namespace NoReposts

/-- JSON values as exposed by `serde_json::Value` (numbers restricted to the
integral values relevant to this service). -/
inductive Json where
  | null
  | bool (b : Bool)
  | num (n : Int)
  | str (s : String)
  | arr (items : List Json)
  | obj (fields : List (String × Json))

/-- `Value::get(key)`: field lookup on an object, `None` otherwise. -/
def Json.get : Json → String → Option Json
  | .obj fields, key => fields.lookup key
  | _, _ => none

/-- `Value::index` (`value["key"]`): like `get` but yielding `Null` when
missing, as `serde_json`'s `Index` does. -/
def Json.idx (j : Json) (key : String) : Json :=
  (j.get key).getD Json.null

/-- `Value::as_str`. -/
def Json.asStr : Json → Option String
  | .str s => some s
  | _ => none

/-- `Value::as_i64` (on the integral numbers modelled here). -/
def Json.asInt : Json → Option Int
  | .num n => some n
  | _ => none

/-- Model of chrono's `DateTime::to_rfc3339` on the `Int` timestamps of this
development: an injective rendering with computable inverse (the concrete
encoding is irrelevant, only invertibility and injectivity are used). -/
def renderTs (t : Int) : String :=
  if 0 ≤ t then String.mk (List.replicate (t.toNat + 1) 'a')
  else String.mk (List.replicate (-t).toNat 'b')

/-- Model of chrono's `DateTime::parse_from_rfc3339`, the inverse of
`renderTs`; every string outside the image of `renderTs` — in particular the
empty string — is a parse error, as with chrono. -/
def parseTs (s : String) : Option Int :=
  if !s.data.isEmpty && s.data.all (fun c => c == 'a') then
    some ((s.data.length : Int) - 1)
  else if !s.data.isEmpty && s.data.all (fun c => c == 'b') then
    some (-(s.data.length : Int))
  else none


/-- Row of the `posts` table (`types.rs::Post`, primary key `uri`). -/
structure Post where
  uri : String
  cid : String
  author_did : String
  text : String
  created_at : Int
  indexed_at : Int
deriving DecidableEq

/-- Row of the `follows` table (`types.rs::Follow`, primary key `uri`). -/
structure Follow where
  uri : String
  follower_did : String
  target_did : String
  created_at : Int
  indexed_at : Int
deriving DecidableEq

/-- Row of the `active_users` table (primary key `did`). -/
structure ActiveUser where
  did : String
  last_feed_request : Int
  last_follow_sync : Option Int
deriving DecidableEq

/-- The persistent store: the three SQLite tables (`database.rs`). -/
structure Store where
  posts : List Post
  follows : List Follow
  active_users : List ActiveUser
deriving DecidableEq

/-- `Database::insert_post`: `INSERT OR REPLACE INTO posts`, an upsert keyed
by `uri`. -/
def insert_post (db : Store) (p : Post) : Store :=
  { db with posts := db.posts.filter (fun q => q.uri != p.uri) ++ [p] }

/-- `Database::delete_post`: `DELETE FROM posts WHERE uri = ?`; total, a
missing `uri` deletes nothing. -/
def delete_post (db : Store) (uri : String) : Store :=
  { db with posts := db.posts.filter (fun q => q.uri != uri) }

/-- `Database::insert_follow`: `INSERT OR REPLACE INTO follows`, an upsert
keyed by `uri`. -/
def insert_follow (db : Store) (f : Follow) : Store :=
  { db with follows := db.follows.filter (fun g => g.uri != f.uri) ++ [f] }

/-- `Database::delete_follow`: `DELETE FROM follows WHERE uri = ?`. -/
def delete_follow (db : Store) (uri : String) : Store :=
  { db with follows := db.follows.filter (fun g => g.uri != uri) }

/-- `Database::record_feed_request`: upsert `(did, now)` into `active_users`
(`ON CONFLICT(did) DO UPDATE SET last_feed_request`).  Defined in the source
but never invoked by any caller. -/
def record_feed_request (db : Store) (did : String) (now : Int) : Store :=
  if db.active_users.any (fun u => u.did == did) then
    { db with active_users :=
        db.active_users.map (fun u =>
          if u.did == did then { u with last_feed_request := now } else u) }
  else
    { db with active_users := db.active_users ++ [⟨did, now, none⟩] }

/-- The descending chronological order used by `ORDER BY p.created_at DESC`. -/
def postOrder (a b : Post) : Prop := b.created_at ≤ a.created_at

instance : DecidableRel postOrder := fun a b =>
  inferInstanceAs (Decidable (b.created_at ≤ a.created_at))

instance : IsTotal Post postOrder :=
  ⟨fun a b => le_total b.created_at a.created_at⟩

instance : IsTrans Post postOrder :=
  ⟨fun _ _ _ hab hbc => le_trans hbc hab⟩

/-- Core of `Database::get_following_posts` once the cursor has been resolved
to an instant: the SQL statement
`SELECT p.* FROM posts p INNER JOIN follows f ON f.target_did = p.author_did
 WHERE f.follower_did = ? AND p.created_at < ? ORDER BY p.created_at DESC
 LIMIT ?`.
The join yields one row per matching `(post, follow)` pair (no `DISTINCT`);
the order among equal `created_at` values is implementation-defined in SQLite
and is modelled by a deterministic stable insertion sort.  `limit` is
nonnegative in every reachable call (the endpoint caps it into `[1,100]`). -/
def getFollowingPostsAt (db : Store) (follower_did : String) (limit : Int)
    (cursor_time : Int) : List Post :=
  let rows := db.posts.flatMap (fun p =>
    (db.follows.filter (fun f =>
      f.follower_did == follower_did && f.target_did == p.author_did)).map
      (fun _ => p))
  let matched := rows.filter (fun p => decide (p.created_at < cursor_time))
  (List.insertionSort postOrder matched).take limit.toNat

/-- `Database::get_following_posts`: resolves the optional cursor string with
`parse_from_rfc3339`, falling back to `now` when absent or unparseable, then
runs the query. -/
def get_following_posts (db : Store) (follower_did : String) (limit : Int)
    (cursor : Option String) (now : Int) : List Post :=
  getFollowingPostsAt db follower_did limit ((cursor.bind parseTs).getD now)

/-- `types.rs::SkeletonFeedPost`. -/
structure SkeletonFeedPost where
  post : String
deriving DecidableEq

/-- `types.rs::FeedSkeletonResponse`. -/
structure FeedSkeletonResponse where
  cursor : Option String
  feed : List SkeletonFeedPost
deriving DecidableEq

/-- `FollowingNoRepostsFeed::generate_feed` (`feed_algorithm.rs`): requires a
requester, caps the limit at 100 (default 50), queries the store, and returns
the uris together with the `created_at` of the last row as next cursor. -/
def generate_feed (db : Store) (requester_did : Option String)
    (limit : Option Int) (cursor : Option String) (now : Int) :
    FeedSkeletonResponse :=
  match requester_did with
  | none => ⟨none, []⟩
  | some follower_did =>
    let lim := min (limit.getD 50) 100
    let posts := get_following_posts db follower_did lim cursor now
    ⟨posts.getLast?.map (fun p => renderTs p.created_at),
     posts.map (fun p => ⟨p.uri⟩)⟩

/-- The at-uri `at://<did>/<collection>/<rkey>` a handler assembles for a
commit. -/
def commitUri (did collection rkey : String) : String :=
  "at://" ++ did ++ "/" ++ collection ++ "/" ++ rkey

/-- `JetstreamEventHandler::handle_post_event` (`jetstream_consumer.rs`): on
`create`, drop records carrying a `subject` field (reposts), otherwise upsert
the post (`text` and `createdAt` defaulted as in the source, `createdAt`
falling back to `now` when unparseable); on `delete`, delete by uri; other
operations are ignored. -/
def handle_post_event (db : Store) (did collection rkey operation : String)
    (record : Option Json) (cid : String) (now : Int) : Store :=
  let uri := commitUri did collection rkey
  match operation, record with
  | "create", some r =>
    if (r.get "subject").isSome then db
    else
      insert_post db
        { uri := uri
          cid := cid
          author_did := did
          text := ((r.get "text").bind Json.asStr).getD ""
          created_at :=
            (parseTs (((r.get "createdAt").bind Json.asStr).getD "")).getD now
          indexed_at := now }
  | "create", none => db
  | "delete", _ => delete_post db uri
  | _, _ => db

/-- `JetstreamEventHandler::handle_follow_event` (`jetstream_consumer.rs`): on
`create`, upsert a follow whose `target_did` is `record.subject` as a string,
defaulting to the empty string; on `delete`, delete by uri. -/
def handle_follow_event (db : Store) (did collection rkey operation : String)
    (record : Option Json) (now : Int) : Store :=
  let uri := commitUri did collection rkey
  match operation, record with
  | "create", some r =>
    insert_follow db
      { uri := uri
        follower_did := did
        target_did := ((r.get "subject").bind Json.asStr).getD ""
        created_at :=
          (parseTs (((r.get "createdAt").bind Json.asStr).getD "")).getD now
        indexed_at := now }
  | "create", none => db
  | "delete", _ => delete_follow db uri
  | _, _ => db

/-- A decoded firehose commit (`JetstreamEvent::Commit` payload); the dispatch
in `handle_event` always passes the record as `Some`. -/
structure Commit where
  did : String
  collection : String
  rkey : String
  operation : String
  record : Json
  cid : String

/-- The commit dispatch of `JetstreamEventHandler::handle_event`: posts and
follows go to their handlers, other collections are ignored. -/
def handle_commit (db : Store) (c : Commit) (now : Int) : Store :=
  match c.collection with
  | "app.bsky.feed.post" =>
    handle_post_event db c.did c.collection c.rkey c.operation (some c.record)
      c.cid now
  | "app.bsky.graph.follow" =>
    handle_follow_event db c.did c.collection c.rkey c.operation
      (some c.record) now
  | _ => db

/-- Replaying one commit through the handler once per entry of `nows` (the
wall-clock instant of each application). -/
def apply_commit_times (db : Store) (c : Commit) (nows : List Int) : Store :=
  nows.foldl (fun st t => handle_commit st c t) db

/-- The post a non-repost `create` commit is translated to at instant `now`
(the body of the insert in `handle_post_event`). -/
def postOfCommit (c : Commit) (now : Int) : Post :=
  { uri := commitUri c.did c.collection c.rkey
    cid := c.cid
    author_did := c.did
    text := ((c.record.get "text").bind Json.asStr).getD ""
    created_at :=
      (parseTs (((c.record.get "createdAt").bind Json.asStr).getD "")).getD now
    indexed_at := now }

/-- The follow a `create` commit is translated to at instant `now` (the body
of the insert in `handle_follow_event`). -/
def followOfCommit (c : Commit) (now : Int) : Follow :=
  { uri := commitUri c.did c.collection c.rkey
    follower_did := c.did
    target_did := ((c.record.get "subject").bind Json.asStr).getD ""
    created_at :=
      (parseTs (((c.record.get "createdAt").bind Json.asStr).getD "")).getD now
    indexed_at := now }

/-- Processing of one author-feed item inside the paging loop of
`backfill::backfill_posts`: skip when the enclosing item has a `reason` field
or the post record has a `subject` field (reposts), or when `uri` or `cid`
are missing; otherwise upsert the post. -/
def backfill_item (db : Store) (target_did : String) (item : Json)
    (now : Int) : Store :=
  let post := item.idx "post"
  if (item.get "reason").isSome then db
  else
    let record := post.idx "record"
    if (record.get "subject").isSome then db
    else
      let uri := ((post.get "uri").bind Json.asStr).getD ""
      let cid := ((post.get "cid").bind Json.asStr).getD ""
      if uri == "" || cid == "" then db
      else
        insert_post db
          { uri := uri
            cid := cid
            author_did := target_did
            text := ((record.get "text").bind Json.asStr).getD ""
            created_at :=
              (parseTs (((record.get "createdAt").bind Json.asStr).getD "")).getD
                now
            indexed_at := now }

/-- One deletion step of `Database::sync_follows_for_user`: if the snapshot
target `t` is still followed remotely it is kept, otherwise
`DELETE FROM follows WHERE follower_did = ? AND target_did = ?`. -/
def syncStep (did : String) (targets : List String) (st : Store)
    (t : String) : Store :=
  if targets.contains t then st
  else
    { st with follows :=
        st.follows.filter (fun f =>
          !(f.follower_did == did && f.target_did == t)) }

/-- `Database::sync_follows_for_user`: snapshot the targets currently stored
for `did`, then delete each one no longer present in `targets`. -/
def sync_follows_for_user (db : Store) (did : String)
    (targets : List String) : Store :=
  let db_targets :=
    (db.follows.filter (fun f => f.follower_did == did)).map
      (fun f => f.target_did)
  db_targets.foldl (syncStep did targets) db

/-- The typed authentication errors of `auth.rs::validate_jwt` (each `anyhow`
error message of the source mapped to a constructor). -/
inductive AuthError where
  | invalidFormat
  | missingClaim
  | audienceMismatch
  | expired
  | badSignature
deriving DecidableEq

/-- `types.rs::JwtClaims`. -/
structure JwtClaims where
  iss : String
  aud : String
  exp : Int
deriving DecidableEq

/-- `auth.rs::validate_jwt`.  The bearer token is represented by its decoded
payload (`None` models a token `UntrustedToken::new` rejects) together with
`sig_ok`, the outcome of the external DID resolution and signature check
(network I/O): claims are extracted, then audience, expiry and signature are
checked in the order of the source. -/
def validate_jwt (payload : Option Json) (service_did : String) (now : Int)
    (sig_ok : Bool) : Except AuthError JwtClaims :=
  match payload with
  | none => .error .invalidFormat
  | some p =>
    match (p.get "iss").bind Json.asStr with
    | none => .error .missingClaim
    | some iss =>
      match (p.get "aud").bind Json.asStr with
      | none => .error .missingClaim
      | some aud =>
        match (p.get "exp").bind Json.asInt with
        | none => .error .missingClaim
        | some exp =>
          if aud ≠ service_did then .error .audienceMismatch
          else if exp < now then .error .expired
          else if sig_ok then .ok ⟨iss, aud, exp⟩
          else .error .badSignature

/-- Outcome of one feed-skeleton request: HTTP status, resulting store state,
and the JSON body on success. -/
structure FeedResult where
  status : Nat
  store : Store
  response : Option FeedSkeletonResponse
deriving DecidableEq

/-- `main.rs::get_feed_skeleton` after header extraction: validate the token;
on failure answer 401; on success generate the feed for `claims.iss` and
answer 200.  The spawned backfill task only performs external REST I/O before
touching the store and is not modelled; the handler itself performs no store
write (in particular it never calls `record_feed_request`). -/
def get_feed_skeleton (db : Store) (service_did : String)
    (payload : Option Json) (sig_ok : Bool) (now : Int) (limit : Option Int)
    (cursor : Option String) : FeedResult :=
  match validate_jwt payload service_did now sig_ok with
  | .error _ => ⟨401, db, none⟩
  | .ok claims => ⟨200, db, some (generate_feed db (some claims.iss) limit cursor now)⟩

/-- The sequence of feed pages a client obtains by starting from `cursor` and
feeding each response's cursor back in, stopping when a page comes back empty
(empty pages return a null cursor); at most `n` pages are taken. -/
def feedPages (db : Store) (did : String) (limit : Int) (now : Int) :
    Nat → Option String → List (List Post)
  | 0, _ => []
  | n + 1, c =>
    let rows := get_following_posts db did limit c now
    match rows.getLast? with
    | none => []
    | some p => rows :: feedPages db did limit now n (some (renderTs p.created_at))

/-- The contract of one feed page: at most `limit` rows, every row authored
by somebody the requester follows and strictly older than the cursor time,
rows in descending `created_at` order, and the response cursor equal to the
`created_at` of the last row (hence null exactly when the page is empty). -/
def FeedPageSpec (db : Store) (did : String) (limit : Int)
    (cursor : Option String) (now : Int) : Prop :=
  ((get_following_posts db did limit cursor now).length : Int) ≤ limit ∧
    (∀ p ∈ get_following_posts db did limit cursor now,
      (∃ f ∈ db.follows, f.follower_did = did ∧
          f.target_did = p.author_did) ∧
        p.created_at < (cursor.bind parseTs).getD now) ∧
    (get_following_posts db did limit cursor now).Pairwise postOrder ∧
    (generate_feed db (some did) (some limit) cursor now).cursor =
      (get_following_posts db did limit cursor now).getLast?.map
        (fun p => renderTs p.created_at)

/-- The pagination invariant of the spec: concatenating the successive pages
a client obtains by following the returned cursors yields non-increasing
`created_at` values and pairwise-distinct post uris. -/
def PagesOk (db : Store) (did : String) (limit now : Int) (n : Nat) : Prop :=
  ((feedPages db did limit now n none).flatten).Pairwise postOrder ∧
    (((feedPages db did limit now n none).flatten).map Post.uri).Nodup

/-! ## Timestamp codec round-trip -/

theorem parseTs_renderTs (t : Int) : parseTs (renderTs t) = some t := by
  unfold renderTs parseTs
  by_cases h : 0 ≤ t
  · have hall : (List.replicate (t.toNat + 1) 'a').all (fun c => c == 'a') = true := by
      simp [List.all_eq_true, List.mem_replicate]
    simp [h, hall, List.replicate_succ]
  · have ht : t < 0 := lt_of_not_ge h
    have hn : (-t).toNat ≠ 0 := by omega
    obtain ⟨m, hm⟩ : ∃ m, (-t).toNat = m + 1 := ⟨(-t).toNat - 1, by omega⟩
    have h1 : (List.replicate ((-t).toNat) 'b').all (fun c => c == 'a') = false := by
      rw [hm]
      simp [List.replicate_succ]
    have h2 : (List.replicate ((-t).toNat) 'b').all (fun c => c == 'b') = true := by
      simp [List.all_eq_true, List.mem_replicate]
    have h3 : (List.replicate ((-t).toNat) 'b').isEmpty = false := by
      rw [hm]
      simp [List.replicate_succ]
    simp only [if_neg h]
    simp [h1, h2, h3]
    omega

/-! ## Claim C8 — deleting a missing uri is a successful no-op -/

/-- C8: for every `uri` not present in the corresponding table,
`delete_post uri` and `delete_follow uri` return success (they are total) and
leave the entire store state unchanged. -/
theorem delete_missing_uri_noop (db : Store) (uri : String)
    (hp : ∀ p ∈ db.posts, p.uri ≠ uri)
    (hf : ∀ f ∈ db.follows, f.uri ≠ uri) :
    delete_post db uri = db ∧ delete_follow db uri = db := by
  obtain ⟨ps, fs, au⟩ := db
  constructor
  · show Store.mk (ps.filter fun q => q.uri != uri) fs au = Store.mk ps fs au
    rw [List.filter_eq_self.mpr (fun a ha => by simpa using hp a ha)]
  · show Store.mk ps (fs.filter fun g => g.uri != uri) au = Store.mk ps fs au
    rw [List.filter_eq_self.mpr (fun a ha => by simpa using hf a ha)]

theorem delete_missing_uri_noop_witness :
    delete_post ⟨[⟨"p1", "c", "bob", "hi", 1, 1⟩], [], []⟩ "nope" =
        ⟨[⟨"p1", "c", "bob", "hi", 1, 1⟩], [], []⟩ ∧
      delete_follow ⟨[⟨"p1", "c", "bob", "hi", 1, 1⟩], [], []⟩ "nope" =
        ⟨[⟨"p1", "c", "bob", "hi", 1, 1⟩], [], []⟩ :=
  delete_missing_uri_noop ⟨[⟨"p1", "c", "bob", "hi", 1, 1⟩], [], []⟩ "nope"
    (by decide) (by decide)

/-! ## Claim C9 — an unparseable cursor silently falls back to "now" -/

/-- C9: for every present cursor string that fails RFC 3339 parsing,
`get_following_posts` does not fail: it behaves exactly like a call with no
cursor at the same instant. -/
theorem unparseable_cursor_is_now (db : Store) (did : String) (limit : Int)
    (c : String) (now : Int) (hc : parseTs c = none) :
    get_following_posts db did limit (some c) now =
      get_following_posts db did limit none now := by
  simp [get_following_posts, Option.bind, hc]

theorem unparseable_cursor_is_now_witness :
    get_following_posts ⟨[], [], []⟩ "did:a" 5 (some "not-a-date") 7 =
      get_following_posts ⟨[], [], []⟩ "did:a" 5 none 7 :=
  unparseable_cursor_is_now ⟨[], [], []⟩ "did:a" 5 "not-a-date" 7 (by decide)

/-! ## Claim C2 — reposts are never inserted -/

/-- C2: a firehose post `create` whose record carries a `subject` field is
dropped without touching the store, and a backfilled author-feed item whose
enclosing item has a `reason` field or whose post record has a `subject`
field inserts nothing. -/
theorem reposts_never_inserted :
    (∀ (db : Store) (did rkey : String) (r : Json) (cid : String) (now : Int),
        (r.get "subject").isSome →
        handle_post_event db did "app.bsky.feed.post" rkey "create" (some r)
          cid now = db) ∧
      ∀ (db : Store) (target : String) (item : Json) (now : Int),
        (item.get "reason").isSome ∨
            (((item.idx "post").idx "record").get "subject").isSome →
        backfill_item db target item now = db := by
  constructor
  · intro db did rkey r cid now hs
    simp [handle_post_event, hs]
  · intro db target item now h
    by_cases hr : (item.get "reason").isSome
    · simp [backfill_item, hr]
    · rcases h with h | h
      · exact absurd h hr
      · simp [backfill_item, hr, h]

theorem reposts_never_inserted_witness :
    handle_post_event ⟨[], [], []⟩ "bob" "app.bsky.feed.post" "2" "create"
        (some (Json.obj [("subject", Json.str "at://orig")])) "c" 0 =
        ⟨[], [], []⟩ ∧
      backfill_item ⟨[], [], []⟩ "bob"
        (Json.obj [("reason", Json.obj []), ("post", Json.obj [])]) 0 =
        ⟨[], [], []⟩ :=
  ⟨reposts_never_inserted.1 ⟨[], [], []⟩ "bob" "2"
      (Json.obj [("subject", Json.str "at://orig")]) "c" 0 (by decide),
    reposts_never_inserted.2 ⟨[], [], []⟩ "bob"
      (Json.obj [("reason", Json.obj []), ("post", Json.obj [])]) 0
      (Or.inl (by decide))⟩

/-! ## Claim C10 — a follow create without a string `subject` is still
inserted, with an empty `target_did` -/

/-- C10: for every follow `create` whose record lacks a `subject` field or
whose `subject` is not a string, the handler does not drop the event: it
upserts a Follow row with `target_did = ""`, `follower_did` the commit's did
and uri `at://did/collection/rkey`. -/
theorem follow_without_subject_inserted (db : Store) (did rkey : String)
    (r : Json) (now : Int) (hs : (r.get "subject").bind Json.asStr = none) :
    handle_follow_event db did "app.bsky.graph.follow" rkey "create" (some r)
        now =
      insert_follow db
        { uri := commitUri did "app.bsky.graph.follow" rkey
          follower_did := did
          target_did := ""
          created_at :=
            (parseTs (((r.get "createdAt").bind Json.asStr).getD "")).getD now
          indexed_at := now } := by
  simp [handle_follow_event, hs]

theorem follow_without_subject_inserted_witness :
    handle_follow_event ⟨[], [], []⟩ "alice" "app.bsky.graph.follow" "r1"
        "create" (some (Json.obj [("subject", Json.num 3)])) 9 =
      insert_follow ⟨[], [], []⟩
        { uri := commitUri "alice" "app.bsky.graph.follow" "r1"
          follower_did := "alice"
          target_did := ""
          created_at := 9
          indexed_at := 9 } := by
  have h := follow_without_subject_inserted ⟨[], [], []⟩ "alice" "r1"
    (Json.obj [("subject", Json.num 3)]) 9 (by decide)
  simpa using h

/-! ## Claim C6 — follow-set reconciliation -/

theorem syncFold_posts_active (did : String) (targets : List String) :
    ∀ (ts : List String) (st : Store),
      (ts.foldl (syncStep did targets) st).posts = st.posts ∧
        (ts.foldl (syncStep did targets) st).active_users = st.active_users := by
  intro ts
  induction ts with
  | nil => intro st; exact ⟨rfl, rfl⟩
  | cons t ts ih =>
    intro st
    have hstep : (syncStep did targets st t).posts = st.posts ∧
        (syncStep did targets st t).active_users = st.active_users := by
      unfold syncStep
      by_cases hc : t ∈ targets <;> simp [hc]
    obtain ⟨h1, h2⟩ := ih (syncStep did targets st t)
    simp only [List.foldl_cons]
    exact ⟨h1.trans hstep.1, h2.trans hstep.2⟩

theorem syncFold_mem_of (did : String) (targets : List String) :
    ∀ (ts : List String) (st : Store) (f : Follow),
      f ∈ (ts.foldl (syncStep did targets) st).follows → f ∈ st.follows := by
  intro ts
  induction ts with
  | nil => intro st f h; exact h
  | cons t ts ih =>
    intro st f h
    have h1 : f ∈ (syncStep did targets st t).follows := ih _ f h
    unfold syncStep at h1
    by_cases hc : t ∈ targets
    · simpa [hc] using h1
    · rw [if_neg (by simpa using hc)] at h1
      exact (List.mem_filter.mp h1).1

theorem syncFold_keep (did : String) (targets : List String) :
    ∀ (ts : List String) (st : Store) (f : Follow), f ∈ st.follows →
      (f.follower_did = did → f.target_did ∈ targets) →
      f ∈ (ts.foldl (syncStep did targets) st).follows := by
  intro ts
  induction ts with
  | nil => intro st f h _; exact h
  | cons t ts ih =>
    intro st f hmem hok
    refine ih _ f ?_ hok
    unfold syncStep
    by_cases hc : t ∈ targets
    · simpa [hc] using hmem
    · rw [if_neg (by simpa using hc)]
      rw [List.mem_filter]
      refine ⟨hmem, ?_⟩
      by_cases hfol : f.follower_did = did
      · have htg : f.target_did ∈ targets := hok hfol
        have hne : f.target_did ≠ t := by
          intro he
          rw [he] at htg
          exact hc htg
        simp [hne]
      · simp [hfol]

theorem syncFold_remove (did : String) (targets : List String) :
    ∀ (ts : List String) (st : Store) (f : Follow), f ∈ st.follows →
      f.follower_did = did → f.target_did ∉ targets → f.target_did ∈ ts →
      f ∉ (ts.foldl (syncStep did targets) st).follows := by
  intro ts
  induction ts with
  | nil => intro st f _ _ _ habs; exact absurd habs (List.not_mem_nil _)
  | cons t ts ih =>
    intro st f hmem hfol htg hts
    by_cases hft : f.target_did = t
    · have hc : t ∉ targets := by
        rw [← hft]
        exact htg
      have hgone : f ∉ (syncStep did targets st t).follows := by
        unfold syncStep
        simp [hc, List.mem_filter, hfol, hft]
      intro habs
      exact hgone (syncFold_mem_of did targets ts _ f habs)
    · have hts' : f.target_did ∈ ts := by
        rcases List.mem_cons.mp hts with h | h
        · exact absurd h hft
        · exact h
      by_cases hin : f ∈ (syncStep did targets st t).follows
      · exact ih _ f hin hfol htg hts'
      · intro habs
        exact hin (syncFold_mem_of did targets ts _ f habs)

/-- C6: after `sync_follows_for_user did targets`, no follow of `did` targets
a did outside `targets`; every follow of `did` with target in `targets` that
existed before is still present unchanged; no row is invented; follows of
other followers survive; the other tables are untouched. -/
theorem sync_follows_spec (db : Store) (did : String) (targets : List String) :
    (∀ f ∈ (sync_follows_for_user db did targets).follows,
        f.follower_did = did → f.target_did ∈ targets) ∧
      (∀ f ∈ db.follows, (f.follower_did = did → f.target_did ∈ targets) →
        f ∈ (sync_follows_for_user db did targets).follows) ∧
      (∀ f ∈ (sync_follows_for_user db did targets).follows,
        f ∈ db.follows) ∧
      (sync_follows_for_user db did targets).posts = db.posts ∧
      (sync_follows_for_user db did targets).active_users = db.active_users := by
  refine ⟨?_, ?_, ?_, ?_, ?_⟩
  · intro f hmem hfol
    by_contra htg
    have hdbmem : f ∈ db.follows := syncFold_mem_of did targets _ db f hmem
    have hsnap : f.target_did ∈
        (db.follows.filter (fun g => g.follower_did == did)).map
          (fun g => g.target_did) := by
      exact List.mem_map_of_mem _ (List.mem_filter.mpr ⟨hdbmem, by simp [hfol]⟩)
    exact syncFold_remove did targets _ db f hdbmem hfol htg hsnap hmem
  · intro f hmem hok
    exact syncFold_keep did targets _ db f hmem hok
  · intro f hmem
    exact syncFold_mem_of did targets _ db f hmem
  · exact (syncFold_posts_active did targets _ db).1
  · exact (syncFold_posts_active did targets _ db).2

theorem sync_follows_spec_witness :
    (⟨"u1", "alice", "bob", 0, 0⟩ : Follow) ∈
      (sync_follows_for_user
        ⟨[], [⟨"u1", "alice", "bob", 0, 0⟩, ⟨"u2", "alice", "carol", 0, 0⟩],
          []⟩ "alice" ["bob"]).follows :=
  (sync_follows_spec
      ⟨[], [⟨"u1", "alice", "bob", 0, 0⟩, ⟨"u2", "alice", "carol", 0, 0⟩], []⟩
      "alice" ["bob"]).2.1 ⟨"u1", "alice", "bob", 0, 0⟩ (by decide)
    (fun _ => by decide)

/-! ## Claim C3 — the feed endpoint never records the request in ActiveUser

`main.rs::get_feed_skeleton` authenticates, spawns the backfill task and
generates the feed, but `Database::record_feed_request` is never called by
any code path of the program; the `active_users` table is never written. -/

/-- C3 (refuting evaluation): a successfully authenticated feed request
(status 200) from a store with an empty `active_users` table leaves
`active_users` empty — there is no row for `claims.iss` afterwards, contrary
to the claim. -/
theorem feed_request_not_recorded :
    get_feed_skeleton ⟨[], [], []⟩ "did:web:feed.example"
        (some (Json.obj [("iss", Json.str "did:plc:alice"),
          ("aud", Json.str "did:web:feed.example"), ("exp", Json.num 10)]))
        true 5 none none =
      ⟨200, ⟨[], [], []⟩, some ⟨none, []⟩⟩ := by
  decide

/-! ## Claim C5 — authentication checks -/

/-- C5 (counterexample to the claim as stated): a token whose `exp` equals
the request time is accepted — the response has status 200 although the
expiry is *not* strictly greater than the request time (the code only
rejects `exp < now`). -/
theorem auth_exp_equal_now_accepted :
    (get_feed_skeleton ⟨[], [], []⟩ "svc"
          (some (Json.obj [("iss", Json.str "did:plc:alice"),
            ("aud", Json.str "svc"), ("exp", Json.num 100)]))
          true 100 none none).status = 200 ∧
      ¬((100 : Int) > 100) := by
  decide

/-- C5 (amended): a wrong audience yields the audience error; an expiry
strictly before the request time yields the expired error; and every feed
response with status 200 came from a token whose `aud` equals the service
DID and whose `exp` is greater than **or equal to** the request time. -/
theorem auth_checks_spec :
    (∀ (p : Json) (service : String) (now : Int) (sig : Bool)
        (iss aud : String) (exp : Int),
        (p.get "iss").bind Json.asStr = some iss →
        (p.get "aud").bind Json.asStr = some aud →
        (p.get "exp").bind Json.asInt = some exp →
        aud ≠ service →
        validate_jwt (some p) service now sig = .error .audienceMismatch) ∧
      (∀ (p : Json) (service : String) (now : Int) (sig : Bool)
          (iss aud : String) (exp : Int),
          (p.get "iss").bind Json.asStr = some iss →
          (p.get "aud").bind Json.asStr = some aud →
          (p.get "exp").bind Json.asInt = some exp →
          aud = service → exp < now →
          validate_jwt (some p) service now sig = .error .expired) ∧
      ∀ (db : Store) (service : String) (payload : Option Json) (sig : Bool)
          (now : Int) (limit : Option Int) (cursor : Option String),
          (get_feed_skeleton db service payload sig now limit cursor).status =
            200 →
          ∃ (p : Json) (iss : String) (exp : Int), payload = some p ∧
            (p.get "iss").bind Json.asStr = some iss ∧
            (p.get "aud").bind Json.asStr = some service ∧
            (p.get "exp").bind Json.asInt = some exp ∧ now ≤ exp := by
  refine ⟨?_, ?_, ?_⟩
  · intro p service now sig iss aud exp hiss haud hexp hne
    simp [validate_jwt, hiss, haud, hexp, hne]
  · intro p service now sig iss aud exp hiss haud hexp heq hlt
    simp [validate_jwt, hiss, haud, hexp, heq, hlt]
  · intro db service payload sig now limit cursor h200
    rw [get_feed_skeleton] at h200
    split at h200
    · simp at h200
    · rename_i claims hval
      rw [validate_jwt.eq_def] at hval
      split at hval
      · simp at hval
      · rename_i p
        split at hval
        · simp at hval
        · rename_i iss hiss
          split at hval
          · simp at hval
          · rename_i aud haud
            split at hval
            · simp at hval
            · rename_i exp hexp
              split at hval
              · simp at hval
              · rename_i hne
                split at hval
                · simp at hval
                · rename_i hlt
                  split at hval
                  · have heq : aud = service := not_not.mp hne
                    subst heq
                    exact ⟨p, iss, exp, rfl, hiss, haud, hexp, not_lt.mp hlt⟩
                  · simp at hval

theorem auth_checks_spec_witness :
    validate_jwt
        (some (Json.obj [("iss", Json.str "did:plc:alice"),
          ("aud", Json.str "other"), ("exp", Json.num 9)]))
        "svc" 0 true = .error .audienceMismatch :=
  auth_checks_spec.1
    (Json.obj [("iss", Json.str "did:plc:alice"), ("aud", Json.str "other"),
      ("exp", Json.num 9)])
    "svc" 0 true "did:plc:alice" "other" 9 (by decide) (by decide) (by decide)
    (by decide)

/-! ## Claim C7 — idempotent ingestion -/

theorem filter_upsert_eq {l : List Post} {p : Post} {u : String}
    (hu : p.uri = u) :
    (l.filter (fun q => q.uri != u) ++ [p]).filter
        (fun q => q.uri == u) = [p] := by
  rw [List.filter_append, List.filter_filter]
  have h1 : (l.filter fun a => a.uri == u && (a.uri != u)) = [] := by
    rw [List.filter_eq_nil_iff]
    intro a _
    by_cases h : a.uri = u <;> simp [h]
  rw [h1]
  simp [hu]

theorem filter_upsert_eq_follow {l : List Follow} {f : Follow} {u : String}
    (hu : f.uri = u) :
    (l.filter (fun g => g.uri != u) ++ [f]).filter
        (fun g => g.uri == u) = [f] := by
  rw [List.filter_append, List.filter_filter]
  have h1 : (l.filter fun a => a.uri == u && (a.uri != u)) = [] := by
    rw [List.filter_eq_nil_iff]
    intro a _
    by_cases h : a.uri = u <;> simp [h]
  rw [h1]
  simp [hu]

theorem handle_commit_post_filter (db : Store) (c : Commit) (t : Int)
    (hcol : c.collection = "app.bsky.feed.post") (hop : c.operation = "create")
    (hsub : c.record.get "subject" = none) :
    (handle_commit db c t).posts.filter
        (fun p => p.uri == commitUri c.did c.collection c.rkey) =
      [postOfCommit c t] := by
  obtain ⟨did, col, rkey, op, rec, cid⟩ := c
  simp only at hcol hop hsub
  subst hcol
  subst hop
  simp only [handle_commit, handle_post_event, hsub, Option.isSome_none,
    Bool.false_eq_true, if_false, insert_post]
  exact filter_upsert_eq rfl

theorem handle_commit_follow_filter (db : Store) (c : Commit) (t : Int)
    (hcol : c.collection = "app.bsky.graph.follow")
    (hop : c.operation = "create") :
    (handle_commit db c t).follows.filter
        (fun f => f.uri == commitUri c.did c.collection c.rkey) =
      [followOfCommit c t] := by
  obtain ⟨did, col, rkey, op, rec, cid⟩ := c
  simp only at hcol hop
  subst hcol
  subst hop
  simp only [handle_commit, handle_follow_event, insert_follow]
  exact filter_upsert_eq_follow rfl

/-- C7 (counterexample to the claim as stated): a `create` commit in the post
collection whose record carries a `subject` field (a repost) is dropped:
applying it once to the empty store leaves **zero** rows keyed by its uri,
not exactly one. -/
theorem repost_create_leaves_no_row :
    ((apply_commit_times ⟨[], [], []⟩
          ⟨"bob", "app.bsky.feed.post", "2", "create",
            Json.obj [("subject", Json.str "at://orig")], "cid2"⟩
          [0]).posts.filter
        (fun p => p.uri == commitUri "bob" "app.bsky.feed.post" "2")).length ≠
      1 := by
  decide

/-- C7 (amended): for every `create` commit the handlers do not drop — a post
`create` without a `subject` field, or any follow `create` — applying the
commit N ≥ 1 times leaves exactly one row keyed by the commit's uri, whose
contents are the ones produced by the last application. -/
theorem ingestion_idempotent (db : Store) (c : Commit) (nows : List Int)
    (hn : nows ≠ []) :
    (c.collection = "app.bsky.feed.post" → c.operation = "create" →
        c.record.get "subject" = none →
        (apply_commit_times db c nows).posts.filter
            (fun p => p.uri == commitUri c.did c.collection c.rkey) =
          [postOfCommit c (nows.getLast hn)]) ∧
      (c.collection = "app.bsky.graph.follow" → c.operation = "create" →
        (apply_commit_times db c nows).follows.filter
            (fun f => f.uri == commitUri c.did c.collection c.rkey) =
          [followOfCommit c (nows.getLast hn)]) := by
  have hstep : apply_commit_times db c nows =
      handle_commit (apply_commit_times db c nows.dropLast) c
        (nows.getLast hn) := by
    unfold apply_commit_times
    conv_lhs => rw [← List.dropLast_append_getLast hn]
    rw [List.foldl_append]
    rfl
  constructor
  · intro h1 h2 h3
    rw [hstep]
    exact handle_commit_post_filter _ c _ h1 h2 h3
  · intro h1 h2
    rw [hstep]
    exact handle_commit_follow_filter _ c _ h1 h2

theorem ingestion_idempotent_witness :
    (apply_commit_times ⟨[], [], []⟩
          ⟨"bob", "app.bsky.feed.post", "1", "create",
            Json.obj [("text", Json.str "hi")], "cid1"⟩
          [3, 8]).posts.filter
        (fun p => p.uri == commitUri "bob" "app.bsky.feed.post" "1") =
      [postOfCommit
        ⟨"bob", "app.bsky.feed.post", "1", "create",
          Json.obj [("text", Json.str "hi")], "cid1"⟩ 8] :=
  (ingestion_idempotent ⟨[], [], []⟩
        ⟨"bob", "app.bsky.feed.post", "1", "create",
          Json.obj [("text", Json.str "hi")], "cid1"⟩
        [3, 8] (by decide)).1 rfl rfl rfl

/-! ## Feed query lemmas (shared by C1 and C4) -/

theorem length_getAt (db : Store) (did : String) (limit ct : Int) :
    (getFollowingPostsAt db did limit ct).length ≤ limit.toNat := by
  unfold getFollowingPostsAt
  exact List.length_take_le _ _

theorem mem_getAt {db : Store} {did : String} {limit ct : Int} {p : Post}
    (hp : p ∈ getFollowingPostsAt db did limit ct) :
    p ∈ db.posts ∧ p.created_at < ct ∧
      ∃ f ∈ db.follows, f.follower_did = did ∧
        f.target_did = p.author_did := by
  unfold getFollowingPostsAt at hp
  have h1 := List.mem_of_mem_take hp
  have h2 := (List.perm_insertionSort postOrder _).mem_iff.mp h1
  rw [List.mem_filter] at h2
  obtain ⟨hrows, hlt⟩ := h2
  rw [List.mem_flatMap] at hrows
  obtain ⟨q, hq, hpq⟩ := hrows
  rw [List.mem_map] at hpq
  obtain ⟨f, hf, hfp⟩ := hpq
  subst hfp
  rw [List.mem_filter] at hf
  obtain ⟨hfmem, hcond⟩ := hf
  simp only [Bool.and_eq_true, beq_iff_eq] at hcond
  exact ⟨hq, by simpa using hlt, f, hfmem, hcond.1, hcond.2⟩

theorem sorted_getAt (db : Store) (did : String) (limit ct : Int) :
    (getFollowingPostsAt db did limit ct).Pairwise postOrder := by
  unfold getFollowingPostsAt
  exact List.Pairwise.sublist (List.take_sublist _ _)
    (List.sorted_insertionSort postOrder _)

/-! ## Claim C1 — feed query contract -/


/-- C1: for every requester, every limit in `[1,100]` and every cursor that
is absent or a parseable instant, the feed page satisfies `FeedPageSpec`. -/
theorem feed_query_contract (db : Store) (did : String) (limit : Int)
    (cursor : Option String) (now : Int)
    (hlim : 1 ≤ limit ∧ limit ≤ 100)
    (_hcur : cursor = none ∨ ∃ c t, cursor = some c ∧ parseTs c = some t) :
    FeedPageSpec db did limit cursor now := by
  refine ⟨?_, ?_, ?_, ?_⟩
  · have h := length_getAt db did limit ((cursor.bind parseTs).getD now)
    unfold get_following_posts
    omega
  · intro p hp
    obtain ⟨_, hlt, hex⟩ := mem_getAt hp
    exact ⟨hex, hlt⟩
  · exact sorted_getAt db did limit _
  · have hmin : min ((some limit).getD 50) 100 = limit := by
      simp [min_eq_left hlim.2]
    simp only [generate_feed, hmin]

theorem feed_query_contract_witness :
    FeedPageSpec
      ⟨[⟨"p1", "c1", "bob", "hi", 1, 1⟩, ⟨"p2", "c2", "bob", "yo", 3, 3⟩],
        [⟨"u1", "alice", "bob", 0, 0⟩], []⟩
      "alice" 2 none 5 :=
  feed_query_contract
    ⟨[⟨"p1", "c1", "bob", "hi", 1, 1⟩, ⟨"p2", "c2", "bob", "yo", 3, 3⟩],
      [⟨"u1", "alice", "bob", 0, 0⟩], []⟩
    "alice" 2 none 5 (by decide) (Or.inl rfl)

/-! ## Claim C4 — pagination: ordering and duplicate uris -/

theorem length_le_one_nodup {α : Type} {l : List α} (hl : l.length ≤ 1) :
    l.Nodup := by
  match l with
  | [] => exact List.nodup_nil
  | [x] => simp
  | x :: y :: t => simp at hl

theorem nodup_all_eq_length_le_one {α : Type} [DecidableEq α] {l : List α}
    {a : α} (hnd : l.Nodup) (hall : ∀ x ∈ l, x = a) : l.length ≤ 1 := by
  match l with
  | [] => simp
  | [x] => simp
  | x :: y :: t =>
    have hx : x = a := hall x (by simp)
    have hy : y = a := hall y (by simp)
    rw [List.nodup_cons] at hnd
    exact absurd (by rw [hx, ← hy]; exact List.mem_cons_self y t) hnd.1

theorem matching_follows_len (db : Store) (did author : String)
    (htg : ((db.follows.filter (fun f => f.follower_did == did)).map
      (fun f => f.target_did)).Nodup) :
    (db.follows.filter (fun f =>
      f.follower_did == did && f.target_did == author)).length ≤ 1 := by
  have hsplit : db.follows.filter (fun f =>
        f.follower_did == did && f.target_did == author) =
      (db.follows.filter (fun f => f.follower_did == did)).filter
        (fun f => f.target_did == author) := by
    rw [List.filter_filter]
    congr 1
    funext a
    rw [Bool.and_comm]
  rw [hsplit]
  have hsub : List.Sublist
      (((db.follows.filter (fun f => f.follower_did == did)).filter
        (fun f => f.target_did == author)).map (fun f => f.target_did))
      ((db.follows.filter (fun f => f.follower_did == did)).map
        (fun f => f.target_did)) :=
    (List.filter_sublist _).map _
  have hnd2 := List.Nodup.sublist hsub htg
  have hall : ∀ x ∈ ((db.follows.filter (fun f => f.follower_did == did)).filter
      (fun f => f.target_did == author)).map (fun f => f.target_did),
      x = author := by
    intro x hx
    rw [List.mem_map] at hx
    obtain ⟨f, hf, hfx⟩ := hx
    have h2 := (List.mem_filter.mp hf).2
    rw [beq_iff_eq] at h2
    rw [← hfx]
    exact h2
  have hlen := nodup_all_eq_length_le_one hnd2 hall
  rwa [List.length_map] at hlen

theorem nodup_flatMap_branch {α : Type} {ps : List α} {branch : α → List α}
    (hb : ∀ p, (branch p).length ≤ 1) (hbeq : ∀ p, ∀ x ∈ branch p, x = p)
    (hnd : ps.Nodup) : (ps.flatMap branch).Nodup := by
  induction ps with
  | nil => simp
  | cons q ps ih =>
    rw [List.flatMap_cons, List.nodup_append]
    obtain ⟨hq, hps⟩ := List.nodup_cons.mp hnd
    refine ⟨length_le_one_nodup (hb q), ih hps, ?_⟩
    intro x hxq hxps
    have hxq' : x = q := hbeq q x hxq
    rw [List.mem_flatMap] at hxps
    obtain ⟨p', hp', hxp'⟩ := hxps
    have hxp'' : x = p' := hbeq p' x hxp'
    exact hq ((hxq'.symm.trans hxp'') ▸ hp')

theorem nodup_getAt (db : Store) (did : String) (limit ct : Int)
    (hwf : (db.posts.map Post.uri).Nodup)
    (htg : ((db.follows.filter (fun f => f.follower_did == did)).map
      (fun f => f.target_did)).Nodup) :
    (getFollowingPostsAt db did limit ct).Nodup := by
  unfold getFollowingPostsAt
  apply List.Nodup.sublist (List.take_sublist _ _)
  apply (List.perm_insertionSort postOrder _).symm.nodup
  apply List.Nodup.filter
  apply nodup_flatMap_branch
  · intro p
    rw [List.length_map]
    exact matching_follows_len db did p.author_did htg
  · intro p x hx
    rw [List.mem_map] at hx
    obtain ⟨_, _, hxp⟩ := hx
    exact hxp.symm
  · exact List.Nodup.of_map _ hwf

theorem map_uri_nodup_getAt (db : Store) (did : String) (limit ct : Int)
    (hwf : (db.posts.map Post.uri).Nodup)
    (htg : ((db.follows.filter (fun f => f.follower_did == did)).map
      (fun f => f.target_did)).Nodup) :
    ((getFollowingPostsAt db did limit ct).map Post.uri).Nodup :=
  (nodup_getAt db did limit ct hwf htg).map_on
    (fun _ hx _ hy hxy =>
      List.inj_on_of_nodup_map hwf (mem_getAt hx).1 (mem_getAt hy).1 hxy)

theorem pairwise_last_min {l : List Post} {p : Post}
    (hs : l.Pairwise postOrder) (hp : l.getLast? = some p) :
    ∀ q ∈ l, p.created_at ≤ q.created_at := by
  induction l with
  | nil => simp at hp
  | cons a t ih =>
    cases t with
    | nil =>
      rw [List.getLast?_singleton] at hp
      have hap : a = p := by injection hp
      intro q hq
      have hqa : q = a := by simpa using hq
      rw [hqa, hap]
    | cons b t' =>
      rw [List.getLast?_cons_cons] at hp
      rw [List.pairwise_cons] at hs
      have hmem_p : p ∈ b :: t' := List.mem_of_getLast?_eq_some hp
      intro q hq
      rcases List.mem_cons.mp hq with rfl | hq'
      · exact hs.1 p hmem_p
      · exact ih hs.2 hp q hq'

theorem feedPages_spec (db : Store) (did : String) (limit now : Int)
    (hwf : (db.posts.map Post.uri).Nodup)
    (htg : ((db.follows.filter (fun f => f.follower_did == did)).map
      (fun f => f.target_did)).Nodup) :
    ∀ (n : Nat) (c : Option String),
      (∀ q ∈ (feedPages db did limit now n c).flatten,
          q ∈ db.posts ∧ q.created_at < (c.bind parseTs).getD now) ∧
        ((feedPages db did limit now n c).flatten).Pairwise postOrder ∧
        (((feedPages db did limit now n c).flatten).map Post.uri).Nodup := by
  intro n
  induction n with
  | zero => intro c; simp [feedPages]
  | succ n ih =>
    intro c
    cases hlast : (get_following_posts db did limit c now).getLast? with
    | none =>
      have hnil : feedPages db did limit now (n + 1) c = [] := by
        simp only [feedPages]
        rw [hlast]
      simp [hnil]
    | some p =>
      have hunfold : feedPages db did limit now (n + 1) c =
          get_following_posts db did limit c now ::
            feedPages db did limit now n (some (renderTs p.created_at)) := by
        simp only [feedPages]
        rw [hlast]
      obtain ⟨ihmem, ihsort, ihnd⟩ := ih (some (renderTs p.created_at))
      have hct' : ((some (renderTs p.created_at)).bind parseTs).getD now =
          p.created_at := by
        simp [Option.bind, parseTs_renderTs]
      rw [hct'] at ihmem
      have hpmem : p ∈ getFollowingPostsAt db did limit
          ((c.bind parseTs).getD now) := List.mem_of_getLast?_eq_some hlast
      have hplt : p.created_at < (c.bind parseTs).getD now :=
        (mem_getAt hpmem).2.1
      have hlastmin : ∀ q ∈ getFollowingPostsAt db did limit
          ((c.bind parseTs).getD now), p.created_at ≤ q.created_at :=
        pairwise_last_min (sorted_getAt db did limit _) hlast
      rw [hunfold, List.flatten_cons]
      refine ⟨?_, ?_, ?_⟩
      · intro q hq
        rcases List.mem_append.mp hq with hq | hq
        · obtain ⟨hqp, hqlt, _⟩ := mem_getAt hq
          exact ⟨hqp, hqlt⟩
        · obtain ⟨hqp, hqlt⟩ := ihmem q hq
          exact ⟨hqp, lt_trans hqlt hplt⟩
      · rw [List.pairwise_append]
        refine ⟨sorted_getAt db did limit _, ihsort, ?_⟩
        intro a ha b hb
        have hb' : b.created_at < p.created_at := (ihmem b hb).2
        exact le_of_lt (lt_of_lt_of_le hb' (hlastmin a ha))
      · rw [List.map_append, List.nodup_append]
        refine ⟨map_uri_nodup_getAt db did limit _ hwf htg, ihnd, ?_⟩
        intro u hu1 hu2
        rw [List.mem_map] at hu1 hu2
        obtain ⟨a, ha, hau⟩ := hu1
        obtain ⟨b, hb, hbu⟩ := hu2
        have hab : a = b := List.inj_on_of_nodup_map hwf (mem_getAt ha).1
          (ihmem b hb).1 (hau.trans hbu.symm)
        have hb' : b.created_at < p.created_at := (ihmem b hb).2
        have ha' : p.created_at ≤ a.created_at := hlastmin a ha
        rw [hab] at ha'
        exact absurd (lt_of_lt_of_le hb' ha') (lt_irrefl _)


/-- C4 (counterexample to the claim as stated): with two Follow rows for the
same `(follower, target)` pair under distinct uris, the very first page
already lists the single matching post twice — the join has no `DISTINCT` —
so pagination does yield a duplicate uri. -/
theorem pagination_duplicate_pair_fails :
    ¬ PagesOk
        ⟨[⟨"p1", "c1", "bob", "hi", 1, 1⟩],
          [⟨"u1", "alice", "bob", 0, 0⟩, ⟨"u2", "alice", "bob", 0, 0⟩], []⟩
        "alice" 10 5 1 := by
  intro h
  have h2 := h.2
  have heval : ((feedPages
        ⟨[⟨"p1", "c1", "bob", "hi", 1, 1⟩],
          [⟨"u1", "alice", "bob", 0, 0⟩, ⟨"u2", "alice", "bob", 0, 0⟩], []⟩
        "alice" 10 5 1 none).flatten).map Post.uri = ["p1", "p1"] := by
    decide
  rw [heval] at h2
  simp at h2

/-- C4 (amended): for every store whose posts table has pairwise-distinct
uris (its primary key) and every requester none of whose Follow rows repeat a
`target_did`, successive feed pages obtained by passing each response's
cursor back in yield strictly non-increasing `created_at` and no duplicate
post uri, within a page and across pages. -/
theorem pagination_sorted_nodup (db : Store) (did : String) (limit now : Int)
    (n : Nat) (hwf : (db.posts.map Post.uri).Nodup)
    (htg : ((db.follows.filter (fun f => f.follower_did == did)).map
      (fun f => f.target_did)).Nodup) :
    PagesOk db did limit now n :=
  ⟨(feedPages_spec db did limit now hwf htg n none).2.1,
    (feedPages_spec db did limit now hwf htg n none).2.2⟩

theorem pagination_sorted_nodup_witness :
    PagesOk
      ⟨[⟨"p1", "c1", "bob", "hi", 1, 1⟩, ⟨"p2", "c2", "bob", "yo", 3, 3⟩],
        [⟨"u1", "alice", "bob", 0, 0⟩], []⟩
      "alice" 1 5 3 :=
  pagination_sorted_nodup
    ⟨[⟨"p1", "c1", "bob", "hi", 1, 1⟩, ⟨"p2", "c2", "bob", "yo", 3, 3⟩],
      [⟨"u1", "alice", "bob", 0, 0⟩], []⟩
    "alice" 1 5 3 (by decide) (by decide)

end NoReposts
